import Mathlib

/-!
Shallow embedding of the calculation layer of `portfolio_metrics`
(`src/metrics.js` and the provider variants under `src/unnamed/`, whose
pure calculation code is identical), together with the `/metrics`
aggregation loop of the HTTP handler.

JavaScript numbers are modelled as rationals (`ℚ`), except for the
dividend-growth-rate, where `Math.pow(x, 1/n)` is modelled as the real
power `ℝ → ℝ`.  A JavaScript value that may be `null`/`undefined`/`NaN`
after `toNum` is modelled as `Option ℚ`.  Display-only string fields that
no calculation reads (beyond `aggregate`'s currency pick) are kept where
the row carries them.  Wall-clock time is passed explicitly as a `Now`
value carrying the current calendar year and a day index (days on an
absolute timeline), since the code only ever uses `.year()` and
day-granularity comparisons (`isAfter(now − 365 days)`).
-/

namespace PortfolioMetrics

/-- JS: `const safeDiv = (a, b) => (b === 0 ? null : a / b)` from
`src/metrics.js` line 29 / `src/unnamed/part_001` line 8. -/
def safeDiv (a b : ℚ) : Option ℚ :=
  if b = 0 then none else some (a / b)

/-- A validated portfolio position (`{ ticker, shares, avgPrice }` as built
by `loadPortfolio`). -/
structure Position where
  ticker : String
  shares : ℚ
  avgPrice : ℚ
  deriving Repr, DecidableEq

/-- The current wall-clock instant, reduced to what the code observes:
`dayjs().year()` and a day index used for the `today − 365 days`
comparison. -/
structure Now where
  year : ℤ
  day : ℤ
  deriving Repr, DecidableEq

/-- One dividend history event as consumed by `analyzeDividends`
(`src/unnamed/part_001` lines 94–109): a date (observed only through its
calendar year and its day index) and a per-share amount, `none` when
`toNum` returned `null` (absent or `NaN`). -/
structure DivEvent where
  year : ℤ
  day : ℤ
  dividend : Option ℚ
  deriving Repr, DecidableEq

/-- Result of `analyzeDividends`: the per-calendar-year buckets
(`byYear`, a JS object: absent year ↦ `none`) and the
trailing-twelve-month scalar `ttmDivPS`. -/
structure DivAgg where
  byYear : ℤ → Option ℚ
  ttmDivPS : ℚ

/-- One iteration of the `for (const ev of divEvents)` loop body of
`analyzeDividends`: `const amt = toNum(ev.dividend); if (!amt || amt <= 0)
continue; byYear[y] = (byYear[y] || 0) + amt; if (d.isAfter(ttmStart))
ttmDivPS += amt;`.  JS falsiness of `amt` (null or 0) is covered by the
`amt ≤ 0` test together with the `none` case. -/
def divStep (now : Now) (acc : DivAgg) (ev : DivEvent) : DivAgg :=
  match ev.dividend with
  | none => acc
  | some amt =>
    if amt ≤ 0 then acc
    else
      { byYear := fun y =>
          if y = ev.year then some ((acc.byYear ev.year).getD 0 + amt)
          else acc.byYear y
        ttmDivPS :=
          if now.day - 365 < ev.day then acc.ttmDivPS + amt else acc.ttmDivPS }

/-- Embeds `analyzeDividends(divEvents)` from `src/unnamed/part_001` lines 94–109
(the `if (adjusted)` dividend loop of `analyzeFromDaily` in
`src/metrics.js` lines 201–212 is the same fold). -/
def analyzeDividends (divEvents : List DivEvent) (now : Now) : DivAgg :=
  divEvents.foldl (divStep now) ⟨fun _ => none, 0⟩

/-- JS: `const lastFullCalendarYear = () => dayjs().year() - 1`. -/
def lastFullCalendarYear (nowYear : ℤ) : ℤ := nowYear - 1

/-- Embeds `dgr(byYear, n)` from `src/unnamed/part_001` lines 111–117 /
`src/metrics.js` lines 232–241:

    const ly = lastFullCalendarYear();
    const end = byYear[ly];
    const start = byYear[ly - n];
    if (!end || !start || start <= 0) return null;
    return Math.pow(end / start, 1 / n) - 1;

JS falsiness: `!end` is true when `end` is absent or `0`; `!start ||
start <= 0` collapses to absent or `≤ 0`.  `Math.pow` on the
(nonnegative, in every reachable state) base is the real power. -/
noncomputable def dgr (byYear : ℤ → Option ℚ) (n : ℕ) (nowYear : ℤ) : Option ℝ :=
  let ly := lastFullCalendarYear nowYear
  match byYear ly, byYear (ly - n) with
  | some e, some s =>
    if e = 0 ∨ s ≤ 0 then none
    else some (((e : ℝ) / (s : ℝ)) ^ ((1 : ℝ) / (n : ℝ)) - 1)
  | _, _ => none

/-- The quote fetched for a ticker: `{ price, name, currency }` with
`price = toNum(q?.price)`. -/
structure Quote where
  price : Option ℚ
  name : String
  currency : String
  deriving Repr, DecidableEq

/-- The per-ticker output row built at the end of `analyzeTicker`.  Fields
that may be `null` in the JS row are `Option`s; fields the code always
assigns a number are plain `ℚ`. -/
structure Row where
  ticker : String
  name : String
  currency : String
  shares : ℚ
  avgPrice : ℚ
  currentPrice : Option ℚ
  startPrice : Option ℚ
  marketValue : Option ℚ
  ttmDivPS : ℚ
  currentYield : Option ℚ
  yieldOnCost : Option ℚ
  dgr3 : Option ℝ
  dgr5 : Option ℝ
  dgr10 : Option ℝ
  priceReturnAbs : Option ℚ
  priceReturnPct : Option ℚ
  annualDivIncome : ℚ
  monthlyDivIncome : ℚ

/-- The pure tail of `analyzeTicker(t)` (`src/unnamed/part_001` lines
119–164; the metric computation of `src/metrics.js` lines 264–302 is the
same), given the three already-fetched inputs: the quote, the dividend
history and the baseline (start) price. -/
noncomputable def analyzeTicker (t : Position) (quote : Quote)
    (dividends : List DivEvent) (startPx : Option ℚ) (now : Now) : Row :=
  let agg := analyzeDividends dividends now
  let ttmDivPS := agg.ttmDivPS
  let currPx := quote.price
  let mv := match currPx with
    | some c => some (c * t.shares)
    | none => none
  let currentYield := match currPx with
    | some c => safeDiv ttmDivPS c
    | none => none
  let yieldOnCost := safeDiv ttmDivPS t.avgPrice
  let pr : Option ℚ × Option ℚ :=
    match currPx, startPx with
    | some c, some s =>
      if 0 < s then (some ((c - s) * t.shares), some ((c - s) / s))
      else (none, none)
    | _, _ => (none, none)
  let annualDivIncome := ttmDivPS * t.shares
  { ticker := t.ticker
    name := quote.name
    currency := quote.currency
    shares := t.shares
    avgPrice := t.avgPrice
    currentPrice := currPx
    startPrice := startPx
    marketValue := mv
    ttmDivPS := ttmDivPS
    currentYield := currentYield
    yieldOnCost := yieldOnCost
    dgr3 := dgr agg.byYear 3 now.year
    dgr5 := dgr agg.byYear 5 now.year
    dgr10 := dgr agg.byYear 10 now.year
    priceReturnAbs := pr.1
    priceReturnPct := pr.2
    annualDivIncome := annualDivIncome
    monthlyDivIncome := annualDivIncome / 12 }

/-- The running sums mutated by the `for (const r of rows)` loop of
`aggregate`. -/
structure AggSums where
  marketValue : ℚ
  pricePnL : ℚ
  annualDivIncome : ℚ
  startValue : ℚ
  deriving Repr, DecidableEq

/-- One iteration of the `aggregate` loop body:
`totals.marketValue += r.marketValue ?? 0; totals.pricePnL +=
r.priceReturnAbs ?? 0; totals.annualDivIncome += r.annualDivIncome ?? 0;
totals.startValue += (r.startPrice ?? 0) * r.shares;`
(`r.annualDivIncome` is always a number in a row built by
`analyzeTicker`, so `?? 0` is the identity there). -/
def aggStep (acc : AggSums) (r : Row) : AggSums :=
  { marketValue := acc.marketValue + (r.marketValue.getD 0)
    pricePnL := acc.pricePnL + (r.priceReturnAbs.getD 0)
    annualDivIncome := acc.annualDivIncome + r.annualDivIncome
    startValue := acc.startValue + (r.startPrice.getD 0) * r.shares }

/-- The portfolio totals object returned by `aggregate`. -/
structure Totals where
  currency : String
  tickers : ℕ
  marketValue : ℚ
  pricePnL : ℚ
  annualDivIncome : ℚ
  startValue : ℚ
  priceReturnPct : Option ℚ
  monthlyDivIncome : ℚ

/-- Embeds `aggregate(rows)` from `src/unnamed/part_001` lines 166–184
(`src/metrics.js` lines 314–345 differs only in hard-coding
`currency: ''`). -/
def aggregate (rows : List Row) : Totals :=
  let s := rows.foldl aggStep ⟨0, 0, 0, 0⟩
  { currency := ((rows.find? fun r => r.currency != "").map Row.currency).getD ""
    tickers := rows.length
    marketValue := s.marketValue
    pricePnL := s.pricePnL
    annualDivIncome := s.annualDivIncome
    startValue := s.startValue
    priceReturnPct :=
      if 0 < s.startValue then some (s.pricePnL / s.startValue) else none
    monthlyDivIncome := s.annualDivIncome / 12 }

/-- A `perTicker` entry of the `/metrics` response: either a full row, or
the error marker `{ ticker: t.ticker, error: e.message }` substituted when
`analyzeTicker` threw. -/
inductive PerTickerRow where
  | ok (r : Row)
  | err (ticker : String) (msg : String)

/-- Projection `!r.error` as used by `rows.filter(r => !r.error)`: project the full
row out of a non-errored entry. -/
def PerTickerRow.okRow : PerTickerRow → Option Row
  | .ok r => some r
  | .err _ _ => none

/-- The body of the `/metrics` response (`generatedAt`/`startDate` strings
omitted). -/
structure MetricsResponse where
  perTicker : List PerTickerRow
  totals : Totals

/-- The `GET /metrics` handler loop (`src/unnamed/part_004` lines 22–43):
for each configured position run the analyzer, catching a failure into an
error row; then `aggregate(rows.filter(r => !r.error))`.  The analyzer
(with all its fallible fetches) is abstracted as a function returning
`Except` — `.error e` models a thrown exception with message `e`. -/
def metricsHandler (portfolio : List Position)
    (analyze : Position → Except String Row) : MetricsResponse :=
  let rows := portfolio.map fun t =>
    match analyze t with
    | .ok r => PerTickerRow.ok r
    | .error e => PerTickerRow.err t.ticker e
  { perTicker := rows
    totals := aggregate (rows.filterMap PerTickerRow.okRow) }

/-- The `PORTFOLIO_JSON` configuration as seen after the environment
lookup and `JSON.parse`: absent, unparseable, or a list of
`[ticker, value]` entries.  Each entry's `shares`/`avgPrice` is the result
of `toNum` on the raw JSON field (`none` for absent / non-numeric /
`NaN`). -/
structure RawPosition where
  shares : Option ℚ
  avgPrice : Option ℚ
  deriving Repr, DecidableEq

/-- Outcome of `process.env.PORTFOLIO_JSON` plus `JSON.parse`. -/
inductive RawConfig where
  | missing
  | malformed
  | parsed (entries : List (String × RawPosition))

/-- The `Object.entries(parsed).map(...)` of `loadPortfolio`: each entry is
validated by `if (!shares || !avgPrice) throw ...` — JS falsiness rejects
`null` (absent or `NaN` after `toNum`) and `0`, nothing else — and the
first failing entry aborts the whole map. -/
def validateEntries : List (String × RawPosition) → Except String (List Position)
  | [] => .ok []
  | (tk, v) :: rest =>
    match v.shares, v.avgPrice with
    | some s, some p =>
      if s = 0 ∨ p = 0 then .error ("Invalid shares/avgPrice for " ++ tk)
      else
        match validateEntries rest with
        | .ok tail => .ok (⟨tk, s, p⟩ :: tail)
        | .error m => .error m
    | _, _ => .error ("Invalid shares/avgPrice for " ++ tk)

/-- Embeds `loadPortfolio()` from `src/unnamed/part_001` lines 38–51 /
`src/metrics.js` lines 32–46. -/
def loadPortfolio (cfg : RawConfig) : Except String (List Position) :=
  match cfg with
  | .missing => .error "PORTFOLIO_JSON missing"
  | .malformed => .error "PORTFOLIO_JSON invalid JSON"
  | .parsed entries =>
    match validateEntries entries with
    | .error m => .error m
    | .ok positions =>
      if positions.isEmpty then .error "Empty portfolio" else .ok positions

/-- An event survives the `if (!amt || amt <= 0) continue` guard: its
amount is present and strictly positive. -/
def isPayable (ev : DivEvent) : Bool :=
  match ev.dividend with
  | some a => decide (0 < a)
  | none => false

/-- The amount of an event, `0` when absent (only applied to payable
events in statements). -/
def amountOf (ev : DivEvent) : ℚ := ev.dividend.getD 0

/-- Fixture: a row with every optional field absent, as would come out of
`analyzeTicker` when no input was available. -/
def blankRow : Row :=
  { ticker := "Z", name := "Z", currency := "", shares := 0, avgPrice := 0,
    currentPrice := none, startPrice := none, marketValue := none, ttmDivPS := 0,
    currentYield := none, yieldOnCost := none, dgr3 := none, dgr5 := none,
    dgr10 := none, priceReturnAbs := none, priceReturnPct := none,
    annualDivIncome := 0, monthlyDivIncome := 0 }

/-- Fixture: a fully populated row (2 shares, market value 10, baseline
price 4, absolute price P&L 2, annual dividend income 3). -/
def fullRow : Row :=
  { ticker := "A", name := "A", currency := "USD", shares := 2, avgPrice := 1,
    currentPrice := some 5, startPrice := some 4, marketValue := some 10,
    ttmDivPS := 3 / 2, currentYield := some (3 / 10), yieldOnCost := some (3 / 2),
    dgr3 := none, dgr5 := none, dgr10 := none, priceReturnAbs := some 2,
    priceReturnPct := some (1 / 4), annualDivIncome := 3, monthlyDivIncome := 1 / 4 }

/-- Fixture: an analyzer that fails (throws) exactly on ticker "B". -/
def exAnalyze : Position → Except String Row := fun t =>
  if t.ticker = "B" then .error "fetch failed" else .ok fullRow

/-- Fixture: annual dividend totals with buckets for 2020 and 2023 only. -/
def exTotals : ℤ → Option ℚ := fun y =>
  if y = 2023 then some 8 else if y = 2020 then some 1 else none

/-- Fixture: the spec's growth-rate example `{2020: 1.00, 2023: 1.331}`. -/
def exampleTotals : ℤ → Option ℚ := fun y =>
  if y = 2020 then some 1 else if y = 2023 then some (1331 / 1000) else none

lemma divStep_skip (now : Now) (acc : DivAgg) (ev : DivEvent)
    (h : isPayable ev = false) : divStep now acc ev = acc := by
  obtain ⟨yr, dy, dv⟩ := ev
  cases dv with
  | none => rfl
  | some a =>
    have ha : a ≤ 0 := by simpa [isPayable, not_lt] using h
    simp [divStep, ha]

lemma foldl_divStep_filter (now : Now) (evs : List DivEvent) :
    ∀ acc : DivAgg,
      evs.foldl (divStep now) acc = (evs.filter isPayable).foldl (divStep now) acc := by
  induction evs with
  | nil => intro acc; rfl
  | cons ev rest ih =>
    intro acc
    by_cases h : isPayable ev = true
    · simp only [List.foldl_cons, List.filter_cons, h, if_true]
      exact ih _
    · have h' : isPayable ev = false := by simpa using h
      simp only [List.foldl_cons, List.filter_cons, h', Bool.false_eq_true, if_false,
        divStep_skip now acc ev h']
      exact ih acc

lemma foldl_divStep_ttm (now : Now) (evs : List DivEvent) :
    ∀ acc : DivAgg,
      (evs.foldl (divStep now) acc).ttmDivPS
        = acc.ttmDivPS + (((evs.filter isPayable).filter
            (fun ev => decide (now.day - 365 < ev.day))).map amountOf).sum := by
  induction evs with
  | nil => intro acc; simp
  | cons ev rest ih =>
    intro acc
    obtain ⟨yr, dy, dv⟩ := ev
    cases dv with
    | none =>
      have h' : isPayable ⟨yr, dy, none⟩ = false := rfl
      simp only [List.foldl_cons, divStep_skip now acc _ h', List.filter_cons, h',
        Bool.false_eq_true, if_false]
      exact ih acc
    | some a =>
      by_cases ha : 0 < a
      · have hpay : isPayable ⟨yr, dy, some a⟩ = true := by
          simp [isPayable, ha]
        simp only [List.foldl_cons, List.filter_cons, hpay, if_true]
        rw [ih]
        by_cases hin : now.day - 365 < dy
        · have hstep : (divStep now acc ⟨yr, dy, some a⟩).ttmDivPS = acc.ttmDivPS + a := by
            simp [divStep, not_le.mpr ha, hin]
          rw [hstep]
          simp [List.filter_cons, hin, amountOf]
          ring
        · have hstep : (divStep now acc ⟨yr, dy, some a⟩).ttmDivPS = acc.ttmDivPS := by
            simp [divStep, not_le.mpr ha, hin]
          rw [hstep]
          simp [List.filter_cons, hin]
      · have h' : isPayable ⟨yr, dy, some a⟩ = false := by
          simp [isPayable, ha]
        simp only [List.foldl_cons, divStep_skip now acc _ h', List.filter_cons, h',
          Bool.false_eq_true, if_false]
        exact ih acc

lemma foldl_divStep_byYear (now : Now) (y : ℤ) (evs : List DivEvent) :
    ∀ acc : DivAgg,
      ((evs.foldl (divStep now) acc).byYear y).getD 0
        = (acc.byYear y).getD 0 + (((evs.filter isPayable).filter
            (fun ev => decide (ev.year = y))).map amountOf).sum := by
  induction evs with
  | nil => intro acc; simp
  | cons ev rest ih =>
    intro acc
    obtain ⟨yr, dy, dv⟩ := ev
    cases dv with
    | none =>
      have h' : isPayable ⟨yr, dy, none⟩ = false := rfl
      simp only [List.foldl_cons, divStep_skip now acc _ h', List.filter_cons, h',
        Bool.false_eq_true, if_false]
      exact ih acc
    | some a =>
      by_cases ha : 0 < a
      · have hpay : isPayable ⟨yr, dy, some a⟩ = true := by
          simp [isPayable, ha]
        simp only [List.foldl_cons, List.filter_cons, hpay, if_true]
        rw [ih]
        by_cases hy : yr = y
        · subst hy
          have hstep : (divStep now acc ⟨yr, dy, some a⟩).byYear yr
              = some ((acc.byYear yr).getD 0 + a) := by
            simp [divStep, not_le.mpr ha]
          rw [hstep]
          simp [List.filter_cons, amountOf]
          ring
        · have hstep : (divStep now acc ⟨yr, dy, some a⟩).byYear y = acc.byYear y := by
            simp [divStep, not_le.mpr ha, Ne.symm hy]
          rw [hstep]
          simp [List.filter_cons, hy]
      · have h' : isPayable ⟨yr, dy, some a⟩ = false := by
          simp [isPayable, ha]
        simp only [List.foldl_cons, divStep_skip now acc _ h', List.filter_cons, h',
          Bool.false_eq_true, if_false]
        exact ih acc

lemma foldl_aggStep_marketValue (rows : List Row) :
    ∀ acc : AggSums,
      (rows.foldl aggStep acc).marketValue
        = acc.marketValue + (rows.map (fun r => r.marketValue.getD 0)).sum := by
  induction rows with
  | nil => intro acc; simp
  | cons r rest ih =>
    intro acc
    simp only [List.foldl_cons, List.map_cons, List.sum_cons, ih, aggStep]
    ring

lemma foldl_aggStep_pricePnL (rows : List Row) :
    ∀ acc : AggSums,
      (rows.foldl aggStep acc).pricePnL
        = acc.pricePnL + (rows.map (fun r => r.priceReturnAbs.getD 0)).sum := by
  induction rows with
  | nil => intro acc; simp
  | cons r rest ih =>
    intro acc
    simp only [List.foldl_cons, List.map_cons, List.sum_cons, ih, aggStep]
    ring

lemma foldl_aggStep_annualDivIncome (rows : List Row) :
    ∀ acc : AggSums,
      (rows.foldl aggStep acc).annualDivIncome
        = acc.annualDivIncome + (rows.map Row.annualDivIncome).sum := by
  induction rows with
  | nil => intro acc; simp
  | cons r rest ih =>
    intro acc
    simp only [List.foldl_cons, List.map_cons, List.sum_cons, ih, aggStep]
    ring

lemma foldl_aggStep_startValue (rows : List Row) :
    ∀ acc : AggSums,
      (rows.foldl aggStep acc).startValue
        = acc.startValue + (rows.map (fun r => (r.startPrice.getD 0) * r.shares)).sum := by
  induction rows with
  | nil => intro acc; simp
  | cons r rest ih =>
    intro acc
    simp only [List.foldl_cons, List.map_cons, List.sum_cons, ih, aggStep]
    ring

/-- C6: the dividend aggregator discards events with non-positive (or
absent) amounts — running it on the full event list equals running it on
the payable events only, so discarded events never affect any bucket or
the TTM total; each remaining event's amount is added to the bucket of
its calendar year (every bucket holds exactly the sum of the payable
amounts of that year); and the TTM total sums exactly the payable amounts
whose date falls strictly after (today − 365 days). -/
theorem analyzeDividends_spec (evs : List DivEvent) (now : Now) :
    analyzeDividends evs now = analyzeDividends (evs.filter isPayable) now
    ∧ (∀ y : ℤ, ((analyzeDividends evs now).byYear y).getD 0
        = (((evs.filter isPayable).filter
            (fun ev => decide (ev.year = y))).map amountOf).sum)
    ∧ (analyzeDividends evs now).ttmDivPS
        = (((evs.filter isPayable).filter
            (fun ev => decide (now.day - 365 < ev.day))).map amountOf).sum := by
  refine ⟨foldl_divStep_filter now evs _, fun y => ?_, ?_⟩
  · have h := foldl_divStep_byYear now y evs ⟨fun _ => none, 0⟩
    simpa [analyzeDividends] using h
  · have h := foldl_divStep_ttm now evs ⟨fun _ => none, 0⟩
    simpa [analyzeDividends] using h

/-- C4: the portfolio aggregator sums market value, absolute price P&L,
annualized dividend income and baseline value across rows, treating an
unavailable market value / price return / baseline price as 0; the
portfolio-level percentage return is unavailable exactly when the summed
baseline value is not strictly positive, and otherwise equals summed P&L
divided by summed baseline value. -/
theorem aggregate_spec (rows : List Row) :
    (aggregate rows).marketValue = (rows.map (fun r => r.marketValue.getD 0)).sum
    ∧ (aggregate rows).pricePnL = (rows.map (fun r => r.priceReturnAbs.getD 0)).sum
    ∧ (aggregate rows).annualDivIncome = (rows.map Row.annualDivIncome).sum
    ∧ (aggregate rows).startValue
        = (rows.map (fun r => (r.startPrice.getD 0) * r.shares)).sum
    ∧ ((aggregate rows).priceReturnPct = none ↔ (aggregate rows).startValue ≤ 0)
    ∧ (0 < (aggregate rows).startValue →
        (aggregate rows).priceReturnPct
          = some ((aggregate rows).pricePnL / (aggregate rows).startValue)) := by
  refine ⟨by simpa [aggregate] using foldl_aggStep_marketValue rows ⟨0, 0, 0, 0⟩,
    by simpa [aggregate] using foldl_aggStep_pricePnL rows ⟨0, 0, 0, 0⟩,
    by simpa [aggregate] using foldl_aggStep_annualDivIncome rows ⟨0, 0, 0, 0⟩,
    by simpa [aggregate] using foldl_aggStep_startValue rows ⟨0, 0, 0, 0⟩, ?_, ?_⟩
  · by_cases h : 0 < (rows.foldl aggStep ⟨0, 0, 0, 0⟩).startValue
    · simp [aggregate, h, not_le.mpr h]
    · simp [aggregate, h, not_lt.mp h]
  · intro h
    have h' : 0 < (rows.foldl aggStep ⟨0, 0, 0, 0⟩).startValue := by
      simpa [aggregate] using h
    simp [aggregate, h']

/-- C9: for all inputs, safeDiv(a, 0) is unavailable, and
safeDiv(0, b) = 0 for every b ≠ 0. -/
theorem safeDiv_spec (a b : ℚ) :
    safeDiv a 0 = none ∧ (b ≠ 0 → safeDiv 0 b = some 0) := by
  constructor
  · simp [safeDiv]
  · intro hb
    simp [safeDiv, hb]

/-- Witness for C9 at a = 5, b = 5. -/
theorem safeDiv_spec_witness :
    (5 : ℚ) ≠ 0 ∧ safeDiv 5 0 = none ∧ safeDiv 0 5 = some 0 :=
  ⟨by norm_num, (safeDiv_spec 5 5).1, (safeDiv_spec 5 5).2 (by norm_num)⟩

/-- Witness for C4 on `[fullRow, blankRow]`: the second row's unavailable
market value is treated as 0 and the percentage return is the P&L/baseline
ratio since the summed baseline value 8 is positive. -/
theorem aggregate_spec_witness :
    0 < (aggregate [fullRow, blankRow]).startValue
    ∧ (aggregate [fullRow, blankRow]).marketValue
        = ([fullRow, blankRow].map (fun r => r.marketValue.getD 0)).sum
    ∧ (aggregate [fullRow, blankRow]).priceReturnPct
        = some ((aggregate [fullRow, blankRow]).pricePnL
            / (aggregate [fullRow, blankRow]).startValue) :=
  ⟨by norm_num [aggregate, aggStep, fullRow, blankRow],
    (aggregate_spec [fullRow, blankRow]).1,
    (aggregate_spec [fullRow, blankRow]).2.2.2.2.2
      (by norm_num [aggregate, aggStep, fullRow, blankRow])⟩

/-- C3: the `/metrics` handler returns one `perTicker` entry per
configured position; a position whose analyzer fails yields, at the same
index, an error row carrying the ticker and the error message and no
derived fields; the totals aggregate exactly the non-error rows; and in a
3-ticker portfolio with one failing fetch the response has 3 rows — 2
complete, 1 error — with totals aggregated from the 2 complete rows. -/
theorem metricsHandler_spec (portfolio : List Position)
    (analyze : Position → Except String Row) :
    (metricsHandler portfolio analyze).perTicker.length = portfolio.length
    ∧ (metricsHandler portfolio analyze).totals
        = aggregate ((metricsHandler portfolio analyze).perTicker.filterMap
            PerTickerRow.okRow)
    ∧ (∀ (i : ℕ) (t : Position) (e : String),
        portfolio[i]? = some t → analyze t = .error e →
        (metricsHandler portfolio analyze).perTicker[i]?
          = some (.err t.ticker e))
    ∧ (∀ p1 p2 p3 r1 r3 e, portfolio = [p1, p2, p3] →
        analyze p1 = .ok r1 → analyze p2 = .error e → analyze p3 = .ok r3 →
        (metricsHandler portfolio analyze).perTicker
            = [.ok r1, .err p2.ticker e, .ok r3]
        ∧ (metricsHandler portfolio analyze).totals = aggregate [r1, r3]) := by
  refine ⟨by simp [metricsHandler], rfl, ?_, ?_⟩
  · intro i t e ht he
    simp [metricsHandler, List.getElem?_map, ht, he]
  · intro p1 p2 p3 r1 r3 e hp h1 h2 h3
    subst hp
    constructor
    · simp [metricsHandler, h1, h2, h3]
    · simp [metricsHandler, h1, h2, h3, PerTickerRow.okRow]

/-- Witness for C3: a 3-ticker portfolio where the analyzer fails on "B"
yields 3 rows (2 complete and 1 error) and totals over the 2 complete
rows. -/
theorem metricsHandler_spec_witness :
    (metricsHandler [⟨"A", 1, 1⟩, ⟨"B", 1, 1⟩, ⟨"C", 1, 1⟩] exAnalyze).perTicker
        = [.ok fullRow, .err "B" "fetch failed", .ok fullRow]
    ∧ (metricsHandler [⟨"A", 1, 1⟩, ⟨"B", 1, 1⟩, ⟨"C", 1, 1⟩] exAnalyze).totals
        = aggregate [fullRow, fullRow] := by
  have h := (metricsHandler_spec [⟨"A", 1, 1⟩, ⟨"B", 1, 1⟩, ⟨"C", 1, 1⟩] exAnalyze).2.2.2
      ⟨"A", 1, 1⟩ ⟨"B", 1, 1⟩ ⟨"C", 1, 1⟩ fullRow fullRow "fetch failed" rfl
      (by simp [exAnalyze]) (by simp [exAnalyze]) (by simp [exAnalyze])
  exact h

/-- C5: if the baseline price is absent or not strictly positive, both
price-return fields of the per-ticker row are unavailable regardless of
the current price; when a current price and a strictly positive baseline
price are both present, price return absolute = (current − baseline) ×
shares and percent = (current − baseline) / baseline. -/
theorem analyzeTicker_priceReturn_spec (t : Position) (quote : Quote)
    (dividends : List DivEvent) (startPx : Option ℚ) (now : Now) :
    (startPx = none →
        (analyzeTicker t quote dividends startPx now).priceReturnAbs = none
        ∧ (analyzeTicker t quote dividends startPx now).priceReturnPct = none)
    ∧ (∀ s, startPx = some s → s ≤ 0 →
        (analyzeTicker t quote dividends startPx now).priceReturnAbs = none
        ∧ (analyzeTicker t quote dividends startPx now).priceReturnPct = none)
    ∧ (∀ c s, quote.price = some c → startPx = some s → 0 < s →
        (analyzeTicker t quote dividends startPx now).priceReturnAbs
            = some ((c - s) * t.shares)
        ∧ (analyzeTicker t quote dividends startPx now).priceReturnPct
            = some ((c - s) / s)) := by
  obtain ⟨qp, qn, qc⟩ := quote
  refine ⟨?_, ?_, ?_⟩
  · rintro rfl
    cases qp <;> simp [analyzeTicker]
  · rintro s rfl hs
    cases qp <;> simp [analyzeTicker, not_lt.mpr hs]
  · rintro c s rfl rfl hs
    simp [analyzeTicker, hs]

/-- Witness for C5: current price 5, baseline price 4, 2 shares give
price return absolute 2 and percent 1/4. -/
theorem analyzeTicker_priceReturn_spec_witness :
    (analyzeTicker ⟨"A", 2, 1⟩ ⟨some 5, "A", ""⟩ [] (some 4) ⟨2024, 0⟩).priceReturnAbs
        = some 2
    ∧ (analyzeTicker ⟨"A", 2, 1⟩ ⟨some 5, "A", ""⟩ [] (some 4) ⟨2024, 0⟩).priceReturnPct
        = some (1 / 4) := by
  have h := (analyzeTicker_priceReturn_spec ⟨"A", 2, 1⟩ ⟨some 5, "A", ""⟩ [] (some 4)
      ⟨2024, 0⟩).2.2 5 4 rfl rfl (by norm_num)
  refine ⟨?_, ?_⟩
  · rw [h.1]; norm_num
  · rw [h.2]; norm_num

/-- C10: the annualized and monthly dividend income fields of a row are
total (plain numbers by type, never the unavailable marker): annual
income always equals the TTM per-share total times the share count,
monthly income is annual / 12, and an empty dividend history gives 0 for
both. -/
theorem analyzeTicker_divIncome_spec (t : Position) (quote : Quote)
    (dividends : List DivEvent) (startPx : Option ℚ) (now : Now) :
    (analyzeTicker t quote dividends startPx now).annualDivIncome
        = (analyzeDividends dividends now).ttmDivPS * t.shares
    ∧ (analyzeTicker t quote dividends startPx now).monthlyDivIncome
        = (analyzeTicker t quote dividends startPx now).annualDivIncome / 12
    ∧ (dividends = [] →
        (analyzeTicker t quote dividends startPx now).annualDivIncome = 0
        ∧ (analyzeTicker t quote dividends startPx now).monthlyDivIncome = 0) := by
  refine ⟨rfl, rfl, ?_⟩
  rintro rfl
  constructor
  · simp [analyzeTicker, analyzeDividends]
  · simp [analyzeTicker, analyzeDividends]

/-- Witness for C10: empty dividend history gives annual and monthly
income 0. -/
theorem analyzeTicker_divIncome_spec_witness :
    (analyzeTicker ⟨"A", 3, 2⟩ ⟨none, "A", ""⟩ [] none ⟨2024, 0⟩).annualDivIncome = 0
    ∧ (analyzeTicker ⟨"A", 3, 2⟩ ⟨none, "A", ""⟩ [] none ⟨2024, 0⟩).monthlyDivIncome = 0 :=
  (analyzeTicker_divIncome_spec ⟨"A", 3, 2⟩ ⟨none, "A", ""⟩ [] none ⟨2024, 0⟩).2.2 rfl

/-- C1 counterexample: the claim says a division with a negative
denominator yields the unavailable marker, but with a negative average
cost (−3, accepted by `loadPortfolio`'s falsiness check) and a TTM
dividend of 6 the code returns the finite quotient −2, because `safeDiv`
only guards `b === 0`. -/
theorem analyzeTicker_negDenominator_counterexample :
    (analyzeTicker ⟨"X", 1, -3⟩ ⟨some 10, "X", ""⟩ [⟨2024, 1000, some 6⟩] none
        ⟨2025, 1100⟩).yieldOnCost = some (-2) := by
  have h6 : ¬((6 : ℚ) ≤ 0) := by norm_num
  simp [analyzeTicker, analyzeDividends, divStep, safeDiv, h6]
  norm_num

/-- C1 (amended): every derived numeric field of the per-ticker row is a
finite rational or the explicit unavailable marker (`Option` none) — no
error, infinity or NaN — and any division whose denominator is zero (or
whose operands are absent) yields the unavailable marker; a nonzero —
including negative — denominator, however, yields the finite quotient,
since `safeDiv` only guards `b === 0`. -/
theorem analyzeTicker_safeDiv_spec (t : Position) (quote : Quote)
    (dividends : List DivEvent) (startPx : Option ℚ) (now : Now) :
    (t.avgPrice = 0 →
        (analyzeTicker t quote dividends startPx now).yieldOnCost = none)
    ∧ (quote.price = some 0 →
        (analyzeTicker t quote dividends startPx now).currentYield = none)
    ∧ (quote.price = none →
        (analyzeTicker t quote dividends startPx now).currentYield = none
        ∧ (analyzeTicker t quote dividends startPx now).marketValue = none)
    ∧ (t.avgPrice ≠ 0 →
        (analyzeTicker t quote dividends startPx now).yieldOnCost
          = some ((analyzeDividends dividends now).ttmDivPS / t.avgPrice))
    ∧ (∀ c, quote.price = some c → c ≠ 0 →
        (analyzeTicker t quote dividends startPx now).currentYield
          = some ((analyzeDividends dividends now).ttmDivPS / c)) := by
  obtain ⟨qp, qn, qc⟩ := quote
  refine ⟨?_, ?_, ?_, ?_, ?_⟩
  · intro h
    simp [analyzeTicker, safeDiv, h]
  · rintro rfl
    simp [analyzeTicker, safeDiv]
  · rintro rfl
    simp [analyzeTicker]
  · intro h
    simp [analyzeTicker, safeDiv, h]
  · rintro c rfl hc
    simp [analyzeTicker, safeDiv, hc]

/-- Witness for C1 (amended): zero average cost and zero current price
both give the unavailable marker. -/
theorem analyzeTicker_safeDiv_spec_witness :
    (analyzeTicker ⟨"X", 1, 0⟩ ⟨some 0, "X", ""⟩ [] none ⟨2024, 0⟩).yieldOnCost = none
    ∧ (analyzeTicker ⟨"X", 1, 0⟩ ⟨some 0, "X", ""⟩ [] none ⟨2024, 0⟩).currentYield = none :=
  ⟨(analyzeTicker_safeDiv_spec ⟨"X", 1, 0⟩ ⟨some 0, "X", ""⟩ [] none ⟨2024, 0⟩).1 rfl,
    (analyzeTicker_safeDiv_spec ⟨"X", 1, 0⟩ ⟨some 0, "X", ""⟩ [] none ⟨2024, 0⟩).2.1 rfl⟩

/-- C2: for a map of annual dividend totals (whose bucketed values are
strictly positive, as every total produced by the dividend aggregator is
a sum of strictly positive amounts), the growth rate is unavailable
exactly when the total for the last fully completed calendar year is
missing, or the total N years prior is missing or not strictly positive;
otherwise it equals (end/start)^(1/N) − 1. -/
theorem dgr_spec (byYear : ℤ → Option ℚ) (n : ℕ) (nowYear : ℤ)
    (hpos : ∀ y v, byYear y = some v → 0 < v) :
    (dgr byYear n nowYear = none ↔
      byYear (lastFullCalendarYear nowYear) = none
      ∨ byYear (lastFullCalendarYear nowYear - n) = none
      ∨ ∃ s, byYear (lastFullCalendarYear nowYear - n) = some s ∧ s ≤ 0)
    ∧ (∀ e s, byYear (lastFullCalendarYear nowYear) = some e →
        byYear (lastFullCalendarYear nowYear - n) = some s → 0 < s →
        dgr byYear n nowYear
          = some (((e : ℝ) / (s : ℝ)) ^ ((1 : ℝ) / (n : ℝ)) - 1)) := by
  have hd : dgr byYear n nowYear
      = match byYear (lastFullCalendarYear nowYear),
              byYear (lastFullCalendarYear nowYear - n) with
        | some e, some s =>
          if e = 0 ∨ s ≤ 0 then none
          else some (((e : ℝ) / (s : ℝ)) ^ ((1 : ℝ) / (n : ℝ)) - 1)
        | _, _ => none := rfl
  constructor
  · rcases he : byYear (lastFullCalendarYear nowYear) with _ | e
    · simp [hd, he]
    · rcases hs : byYear (lastFullCalendarYear nowYear - n) with _ | s
      · simp [hd, he, hs]
      · have hepos : 0 < e := hpos _ _ he
        have hspos : 0 < s := hpos _ _ hs
        simp [hd, he, hs, hepos.ne', not_le.mpr hspos]
  · intro e s he hs hs'
    have hepos : 0 < e := hpos _ _ he
    simp [hd, he, hs, hepos.ne', not_le.mpr hs']

/-- Witness for C2 on totals {2020: 1, 2023: 8} with N = 3 and the last
full calendar year 2023. -/
theorem dgr_spec_witness :
    dgr exTotals 3 2024
      = some ((((8 : ℚ) : ℝ) / ((1 : ℚ) : ℝ)) ^ ((1 : ℝ) / ((3 : ℕ) : ℝ)) - 1) := by
  have hpos : ∀ y v, exTotals y = some v → 0 < v := by
    intro y v h
    unfold exTotals at h
    split_ifs at h with h1 h2 <;> simp_all
    · norm_num [← h]
    · norm_num [← h]
  exact (dgr_spec exTotals 3 2024 hpos).2 8 1 (by norm_num [exTotals, lastFullCalendarYear])
    (by norm_num [exTotals, lastFullCalendarYear]) (by norm_num)

/-- C7: with now fixed so that the last full calendar year is 2023, the
3-year growth rate of the totals {2020: 1.00, 2023: 1.331} is exactly
0.10; and for any totals where the start year (last full year minus N) is
absent the growth rate is unavailable. -/
theorem dgr_example_spec :
    dgr exampleTotals 3 2024 = some (1 / 10)
    ∧ (∀ (byYear : ℤ → Option ℚ) (n : ℕ),
        byYear (lastFullCalendarYear 2024 - n) = none →
        dgr byYear n 2024 = none) := by
  constructor
  · have he : exampleTotals (lastFullCalendarYear 2024) = some ((1331 : ℚ) / 1000) := by
      norm_num [exampleTotals, lastFullCalendarYear]
    have hs : exampleTotals (lastFullCalendarYear 2024 - (3 : ℕ)) = some (1 : ℚ) := by
      norm_num [exampleTotals, lastFullCalendarYear]
    have hd : dgr exampleTotals 3 2024
        = match exampleTotals (lastFullCalendarYear 2024),
                exampleTotals (lastFullCalendarYear 2024 - (3 : ℕ)) with
          | some e, some s =>
            if e = 0 ∨ s ≤ 0 then none
            else some (((e : ℝ) / (s : ℝ)) ^ ((1 : ℝ) / ((3 : ℕ) : ℝ)) - 1)
          | _, _ => none := rfl
    rw [hd, he, hs]
    have hg : ¬((1331 : ℚ) / 1000 = 0 ∨ (1 : ℚ) ≤ 0) := by norm_num
    show (if (1331 : ℚ) / 1000 = 0 ∨ (1 : ℚ) ≤ 0 then (none : Option ℝ)
        else some ((((((1331 : ℚ) / 1000 : ℚ)) : ℝ) / (((1 : ℚ)) : ℝ))
          ^ ((1 : ℝ) / ((3 : ℕ) : ℝ)) - 1)) = some (1 / 10)
    rw [if_neg hg]
    have key : ((1331 : ℝ) / 1000) ^ ((1 : ℝ) / 3) = 11 / 10 := by
      have hb : ((1331 : ℝ) / 1000) = ((11 : ℝ) / 10) ^ (3 : ℕ) := by norm_num
      rw [hb, ← Real.rpow_natCast ((11 : ℝ) / 10) 3,
        ← Real.rpow_mul (by norm_num : (0 : ℝ) ≤ 11 / 10)]
      norm_num
    simp only [Option.some.injEq]
    push_cast
    rw [div_one, key]
    norm_num
  · intro byYear n h
    have hd : dgr byYear n 2024
        = match byYear (lastFullCalendarYear 2024),
                byYear (lastFullCalendarYear 2024 - n) with
          | some e, some s =>
            if e = 0 ∨ s ≤ 0 then none
            else some (((e : ℝ) / (s : ℝ)) ^ ((1 : ℝ) / (n : ℝ)) - 1)
          | _, _ => none := rfl
    rw [hd, h]
    rcases byYear (lastFullCalendarYear 2024) with _ | e <;> rfl

/-- Witness for C7's universally quantified part: totals with no buckets
at all give an unavailable growth rate. -/
theorem dgr_example_spec_witness :
    dgr (fun _ => none) 3 2024 = none :=
  dgr_example_spec.2 (fun _ => none) 3 rfl

lemma validateEntries_ok (entries : List (String × RawPosition))
    (h : ∀ p : String × RawPosition, p ∈ entries →
      ∃ s a, p.2.shares = some s ∧ s ≠ 0 ∧ p.2.avgPrice = some a ∧ a ≠ 0) :
    validateEntries entries
      = .ok (entries.map fun p => ⟨p.1, p.2.shares.getD 0, p.2.avgPrice.getD 0⟩) := by
  induction entries with
  | nil => rfl
  | cons hd rest ih =>
    obtain ⟨tk, v⟩ := hd
    obtain ⟨s, a, hs, hs0, ha, ha0⟩ := h (tk, v) (List.mem_cons_self _ _)
    have hs' : v.shares = some s := hs
    have ha' : v.avgPrice = some a := ha
    have hrest := ih fun p hp => h p (List.mem_cons_of_mem _ hp)
    simp only [validateEntries, hs', ha', hrest, List.map_cons]
    rw [if_neg (by simp [hs0, ha0])]
    simp [hs', ha']

lemma validateEntries_head_error (tk : String) (v : RawPosition)
    (rest : List (String × RawPosition))
    (hbad : v.shares = none ∨ v.shares = some 0
      ∨ v.avgPrice = none ∨ v.avgPrice = some 0) :
    validateEntries ((tk, v) :: rest)
      = .error ("Invalid shares/avgPrice for " ++ tk) := by
  rcases hbad with h | h | h | h
  · cases hva : v.avgPrice <;> simp [validateEntries, h, hva]
  · cases hva : v.avgPrice with
    | none => simp [validateEntries, h, hva]
    | some a => simp [validateEntries, h, hva]
  · cases hvs : v.shares with
    | none => simp [validateEntries, hvs]
    | some s => simp [validateEntries, hvs, h]
  · cases hvs : v.shares with
    | none => simp [validateEntries, hvs]
    | some s => simp [validateEntries, hvs, h]

lemma validateEntries_cons_error (tk : String) (v : RawPosition)
    (rest : List (String × RawPosition)) (msg : String)
    (h : validateEntries rest = .error msg) :
    ∃ m, validateEntries ((tk, v) :: rest) = .error m := by
  cases hvs : v.shares with
  | none =>
    exact ⟨"Invalid shares/avgPrice for " ++ tk, by simp [validateEntries, hvs]⟩
  | some s =>
    cases hva : v.avgPrice with
    | none =>
      exact ⟨"Invalid shares/avgPrice for " ++ tk, by simp [validateEntries, hvs, hva]⟩
    | some a =>
      by_cases hg : s = 0 ∨ a = 0
      · exact ⟨"Invalid shares/avgPrice for " ++ tk,
          by simp [validateEntries, hvs, hva, hg]⟩
      · exact ⟨msg, by simp [validateEntries, hvs, hva, hg, h]⟩

lemma validateEntries_error_of_mem (entries : List (String × RawPosition))
    (tk : String) (v : RawPosition) (hmem : (tk, v) ∈ entries)
    (hbad : v.shares = none ∨ v.shares = some 0
      ∨ v.avgPrice = none ∨ v.avgPrice = some 0) :
    ∃ msg, validateEntries entries = .error msg := by
  induction entries with
  | nil => simp at hmem
  | cons hd rest ih =>
    obtain ⟨tk', v'⟩ := hd
    rcases List.mem_cons.mp hmem with heq | hmem'
    · obtain ⟨h1, h2⟩ := Prod.mk.injEq .. ▸ heq
      subst h1; subst h2
      exact ⟨_, validateEntries_head_error tk v rest hbad⟩
    · obtain ⟨msg, hmsg⟩ := ih hmem'
      exact validateEntries_cons_error tk' v' rest msg hmsg

/-- C8 counterexample: a position with a NEGATIVE share count (−5)
passes `loadPortfolio`'s validation — the JS check `!shares || !avgPrice`
only rejects absent/NaN/zero values — so loading succeeds although the
claim requires a fail-fast error for any non-positive share count. -/
theorem loadPortfolio_negShares_counterexample :
    loadPortfolio (.parsed [("X", ⟨some (-5), some 10⟩)]) = .ok [⟨"X", -5, 10⟩] := by
  simp [loadPortfolio, validateEntries]

/-- C8 (amended): loading fails fast — with no partial portfolio — when
the configuration is missing, malformed JSON, empty, or contains a
position whose share count or average cost is absent, non-numeric, or
zero; any other configuration (including one with NEGATIVE share counts
or costs, which the falsiness check accepts) yields one position per
configured ticker with its numeric shares and avgPrice. -/
theorem loadPortfolio_spec :
    loadPortfolio .missing = .error "PORTFOLIO_JSON missing"
    ∧ loadPortfolio .malformed = .error "PORTFOLIO_JSON invalid JSON"
    ∧ loadPortfolio (.parsed []) = .error "Empty portfolio"
    ∧ (∀ entries tk v, (tk, v) ∈ entries →
        (v.shares = none ∨ v.shares = some 0
          ∨ v.avgPrice = none ∨ v.avgPrice = some 0) →
        ∃ msg, loadPortfolio (.parsed entries) = .error msg)
    ∧ (∀ entries, entries ≠ [] →
        (∀ p : String × RawPosition, p ∈ entries →
          ∃ s a, p.2.shares = some s ∧ s ≠ 0 ∧ p.2.avgPrice = some a ∧ a ≠ 0) →
        loadPortfolio (.parsed entries)
          = .ok (entries.map fun p => ⟨p.1, p.2.shares.getD 0, p.2.avgPrice.getD 0⟩)) := by
  refine ⟨rfl, rfl, rfl, ?_, ?_⟩
  · intro entries tk v hmem hbad
    obtain ⟨msg, hmsg⟩ := validateEntries_error_of_mem entries tk v hmem hbad
    exact ⟨msg, by simp [loadPortfolio, hmsg]⟩
  · intro entries hne hgood
    have hv := validateEntries_ok entries hgood
    have hmap : (entries.map fun p =>
        (⟨p.1, p.2.shares.getD 0, p.2.avgPrice.getD 0⟩ : Position)).isEmpty = false := by
      cases entries with
      | nil => exact absurd rfl hne
      | cons hd tl => rfl
    simp [loadPortfolio, hv, hmap]

/-- Witness for C8 (amended): an entry with a missing avgPrice fails,
and a well-formed single-entry configuration loads into one position. -/
theorem loadPortfolio_spec_witness :
    (∃ msg, loadPortfolio (.parsed [("X", ⟨some 2, none⟩)]) = .error msg)
    ∧ loadPortfolio (.parsed [("A", ⟨some 2, some 3⟩)]) = .ok [⟨"A", 2, 3⟩] := by
  constructor
  · exact loadPortfolio_spec.2.2.2.1 [("X", ⟨some 2, none⟩)] "X" ⟨some 2, none⟩
      (by simp) (by simp)
  · have h := loadPortfolio_spec.2.2.2.2 [("A", ⟨some 2, some 3⟩)] (by simp)
      (by
        intro p hp
        simp only [List.mem_singleton] at hp
        subst hp
        exact ⟨2, 3, rfl, by norm_num, rfl, by norm_num⟩)
    simpa using h

end PortfolioMetrics
